import Mathlib

/-!
Verification development for the claims-app holder-aggregation pipeline and
distribution-statistics scripts (`src/scripts/scrape_holders.py`,
`src/scripts/scrape_token_ids.py`, `src/scripts/process_og_snapshot.py`,
`src/scripts/analyze_distribution.py`).

Strings are modelled as `List Char`; Python integers as `Nat` (token ids and
amounts are non-negative throughout the scripts); float arithmetic in the
Lorenz/Gini analysis is modelled exactly over `ℚ`.
-/

namespace ClaimsApp

/-- Lower-casing a whole string, as `owner_address.lower()` does. -/
def lowerStr (s : List Char) : List Char := s.map Char.toLower

/-- Python's `s.startswith("0x")` test. -/
def startsWith0x : List Char → Bool
  | '0' :: 'x' :: _ => true
  | _ => false

/-! ### AddressCanonicalizer

Models lines 111-124 of `src/scripts/scrape_holders.py`: ensure a `0x`
prefix, lower-case, and for the Starknet network strip leading zeros after
the prefix, mapping the all-zero address to `0x0`. -/

def addrCanon (isStarknet : Bool) (raw : List Char) : List Char :=
  let a0 := if startsWith0x raw then raw else '0' :: 'x' :: raw
  let a1 := lowerStr a0
  if isStarknet then
    let stripped := (a1.drop 2).dropWhile (fun c => c = '0')
    if stripped.isEmpty then ['0', 'x', '0'] else '0' :: 'x' :: stripped
  else a1

/-! ### TokenIdCodec

`toHex` is Python's `hex()` builtin (minimal lower-case digits, `0x` prefix,
`hex(0) = "0x0"`), used at `scrape_holders.py:127,129`.  `toInternal` is the
parse at `scrape_token_ids.py:96-102`: hex strings via `int(s, 16)`, other
numeric strings via `int(s)`. -/

/-- Lower-case hex digit character for a value `0 ≤ d < 16`. -/
def hexDigitChar (d : Nat) : Char :=
  if d < 10 then Char.ofNat (48 + d) else Char.ofNat (87 + d)

/-- Numeric value of a hex digit character (as `int(s, 16)` reads it). -/
def hexDigitVal (c : Char) : Nat :=
  if 48 ≤ c.toNat ∧ c.toNat ≤ 57 then c.toNat - 48
  else if 97 ≤ c.toNat ∧ c.toNat ≤ 102 then c.toNat - 87
  else if 65 ≤ c.toNat ∧ c.toNat ≤ 70 then c.toNat - 55
  else 0

/-- Hex digits of `n`, most significant first (empty for 0); the first
argument is structural fuel, sufficient whenever `n ≤ fuel`. -/
def toHexCoreAux : Nat → Nat → List Char
  | 0, _ => []
  | _ + 1, 0 => []
  | fuel + 1, n + 1 => toHexCoreAux fuel ((n + 1) / 16) ++ [hexDigitChar ((n + 1) % 16)]

/-- Hex digits of a positive number, most significant first (empty for 0). -/
def toHexCore (n : Nat) : List Char := toHexCoreAux n n

/-- Python's `hex(n)`: `0x`-prefixed minimal lower-case digits, `hex(0)="0x0"`. -/
def pyHex (n : Nat) : List Char := '0' :: 'x' :: (if n = 0 then ['0'] else toHexCore n)

/-- Value of a hex digit string, as `int(s, 16)` computes it. -/
def hexVal (s : List Char) : Nat := s.foldl (fun a c => 16 * a + hexDigitVal c) 0

/-- Value of a decimal digit string, as `int(s)` computes it. -/
def decVal (s : List Char) : Nat := s.foldl (fun a c => 10 * a + (c.toNat - 48)) 0

/-- Models `toInternal` of `scrape_token_ids.py:96-102` restricted to string inputs:
`0x`-prefixed strings parse as hex, others as decimal. -/
def toInternal (s : List Char) : Nat :=
  if startsWith0x s then hexVal (s.drop 2) else decVal s

/-! ### Raw records and holder aggregation

Models the per-record loop of `get_collection_holders`
(`src/scripts/scrape_holders.py:92-133`): alias lookup for the owner and
token-id fields, Python-truthiness guard, address canonicalization, hex
encoding of the token id, and insertion into the `defaultdict(set)` holder
map.  A record whose token-id string is neither `0x`-prefixed nor numeric
makes `int()` raise; the exception is caught by the page-level handler
(lines 154-156), which aborts the whole scan. -/

/-- A JSON field value as the scrapers see it: a string, a non-negative
integer, or JSON null. -/
inductive JsonVal where
  | vStr (s : List Char)
  | vInt (n : Nat)
  | vNull
deriving DecidableEq

/-- A raw NFT record with the alias fields the scraper probes via `in`-checks;
`none` means the field is absent, `some .vNull` a field present but null. -/
structure RawNft where
  ownerAddress : Option JsonVal := none
  owner_address : Option JsonVal := none
  owner : Option JsonVal := none
  tokenId : Option JsonVal := none
  token_id : Option JsonVal := none
  id : Option JsonVal := none
deriving DecidableEq

/-- The owner-field alias chain of lines 94-100. -/
def lookupOwner (r : RawNft) : Option JsonVal :=
  match r.ownerAddress with
  | some v => some v
  | none =>
    match r.owner_address with
    | some v => some v
    | none => r.owner

/-- The token-id alias chain of lines 103-109. -/
def lookupTokenId (r : RawNft) : Option JsonVal :=
  match r.tokenId with
  | some v => some v
  | none =>
    match r.token_id with
    | some v => some v
    | none => r.id

/-- Python truthiness of a JSON value (`if owner_address and token_id:`). -/
def truthy : JsonVal → Bool
  | .vStr s => !s.isEmpty
  | .vInt n => n != 0
  | .vNull => false

def truthyOpt : Option JsonVal → Bool
  | none => false
  | some v => truthy v

def isDigitChar (c : Char) : Bool := 48 ≤ c.toNat && c.toNat ≤ 57

/-- Models `int(s)` on a plain numeric string: digits parse, anything else raises. -/
def decValue (s : List Char) : Option Nat :=
  if !s.isEmpty && s.all isDigitChar then some (decVal s) else none

/-- Lines 111-133 applied to an already-looked-up owner/token pair.
`Except.error` marks a raised exception (non-string truthy owner, or a
truthy token string that `int()` cannot parse), which aborts the scan. -/
def extractCore (isStarknet : Bool) (ow tk : Option JsonVal) :
    Except Unit (Option (List Char × List Char)) :=
  if truthyOpt ow && truthyOpt tk then
    match ow with
    | some (.vStr os) =>
      let addr := addrCanon isStarknet os
      match tk with
      | some (.vInt n) => .ok (some (addr, pyHex n))
      | some (.vStr ts) =>
          if startsWith0x ts then .ok (some (addr, ts))
          else
            match decValue ts with
            | some n => .ok (some (addr, pyHex n))
            | none => .error ()
      | _ => .ok none
    | some (.vInt _) => .error ()
    | _ => .ok none
  else .ok none

/-- Record-level extraction: look up the aliases, then process. -/
def extractRecord (isStarknet : Bool) (r : RawNft) :
    Except Unit (Option (List Char × List Char)) :=
  extractCore isStarknet (lookupOwner r) (lookupTokenId r)

/-- The `defaultdict(set)` holder map, with dict insertion order kept; each
token set is a duplicate-free list (set semantics: membership only). -/
abbrev HolderMap := List (List Char × List (List Char))

/-- Models `set.add`: a no-op when the element is already present. -/
def setAdd (s : List (List Char)) (t : List Char) : List (List Char) :=
  if t ∈ s then s else s ++ [t]

/-- Models `holders_tokens[owner_address].add(token_id_hex)` (line 133). -/
def hmInsert (m : HolderMap) (a t : List Char) : HolderMap :=
  match m with
  | [] => [(a, [t])]
  | (b, s) :: rest => if b = a then (b, setAdd s t) :: rest else (b, s) :: hmInsert rest a t

/-- The token set a holder map associates to an address (empty when absent). -/
def hmTokens (m : HolderMap) (a : List Char) : List (List Char) :=
  match m with
  | [] => []
  | (b, s) :: rest => if b = a then s else hmTokens rest a

/-- The record loop over one page's `nfts` list, with the abort flag set when
a record raises (the page handler then breaks the pagination loop). -/
def aggRecords (isStarknet : Bool) : List RawNft → HolderMap → HolderMap × Bool
  | [], m => (m, false)
  | r :: rs, m =>
    match extractRecord isStarknet r with
    | .error _ => (m, true)
    | .ok none => aggRecords isStarknet rs m
    | .ok (some (a, t)) => aggRecords isStarknet rs (hmInsert m a t)

/-- Returns `true` iff processing this result raised (aborting the scan). -/
def isErr : Except Unit (Option (List Char × List Char)) → Bool
  | .error _ => true
  | .ok _ => false

/-- A record whose token-id string parses neither as hex nor as decimal:
`int("zz")` raises and the scan aborts. -/
def nftBad : RawNft := { ownerAddress := some (.vStr ['0', 'x', 'a']),
                         tokenId := some (.vStr ['z', 'z']) }

/-- A well-formed record for holder `0xb`, token id 1. -/
def nftGood : RawNft := { ownerAddress := some (.vStr ['0', 'x', 'b']),
                          tokenId := some (.vInt 1) }

/-- Another well-formed record: holder `0xc`, token id 2. -/
def nftGood2 : RawNft := { owner := some (.vStr ['0', 'x', 'c']),
                           token_id := some (.vInt 2) }

/-- A record carrying an owner address and the token id `0`. -/
def nftZeroTok : RawNft := { ownerAddress := some (.vStr ['0', 'x', 'a']),
                             tokenId := some (.vInt 0) }

/-! ### Sorting

Models Python's `sorted` as used at `scrape_holders.py:160-162`: the holder
items are sorted by address string (lexicographic code-point comparison) and
each token-id list by `int(x, 16)`.  An insertion sort is used; the claims
only concern sortedness of the result. -/

def insertLe {α : Type} (le : α → α → Bool) (x : α) : List α → List α
  | [] => [x]
  | y :: ys => if le x y then x :: y :: ys else y :: insertLe le x ys

def sortLe {α : Type} (le : α → α → Bool) : List α → List α
  | [] => []
  | x :: xs => insertLe le x (sortLe le xs)

/-- Python string comparison: lexicographic on character code points. -/
def listCharLe : List Char → List Char → Bool
  | [], _ => true
  | _ :: _, [] => false
  | c :: cs, d :: ds =>
      if c.toNat < d.toNat then true
      else if d.toNat < c.toNat then false
      else listCharLe cs ds

/-! ### SnapshotBuilder

Lines 158-163 of `scrape_holders.py`: `sorted(holders_tokens.items())` with
each token-id list sorted by `int(x, 16)`. -/

/-- Models `int(x, 16)`: hex parse accepting an optional `0x` prefix. -/
def intBase16 (s : List Char) : Nat :=
  if startsWith0x s then hexVal (s.drop 2) else hexVal s

/-- Comparison by the sort key `int(x, 16)` (line 162). -/
def tokenLe (a b : List Char) : Bool := decide (intBase16 a ≤ intBase16 b)

/-- The `snapshot` entry list: holder items sorted by address, token ids
sorted by numeric hex value (set iteration order is irrelevant post-sort). -/
def buildSnapshotData (m : HolderMap) : List (List Char × List (List Char)) :=
  (sortLe (fun p q => listCharLe p.1 q.1) m).map
    (fun p => (p.1, sortLe tokenLe p.2))

/-! ### process_og_snapshot

Models `src/scripts/process_og_snapshot.py`: filter the CSV rows to
non-empty Sepolia wallet addresses, deduplicate preserving first-appearance
order, and emit `[address, [hex(idx + 1)]]` entries in that order. -/

def isSpaceChar (c : Char) : Bool :=
  c = ' ' || c = '\t' || c = '\n' || c = '\r' || c = '\x0b' || c = '\x0c'

/-- Python's `str.strip()` on ASCII whitespace. -/
def pyStrip (s : List Char) : List Char :=
  ((s.dropWhile isSpaceChar).reverse.dropWhile isSpaceChar).reverse

def sepoliaChars : List Char := ['s', 'e', 'p', 'o', 'l', 'i', 'a']

/-- One CSV row of `OG_snapshot.csv`. -/
structure OgRow where
  starknetWalletAddress : List Char
  starknetNetwork : List Char
  discordMemberId : List Char
deriving DecidableEq

/-- Lines 15-30: collect non-empty Sepolia wallet addresses in row order. -/
def sepoliaAddresses (rows : List OgRow) : List (List Char) :=
  rows.filterMap (fun row =>
    let w := pyStrip row.starknetWalletAddress
    if w.isEmpty then none
    else if row.starknetNetwork = sepoliaChars then some w
    else none)

/-- Lines 33-41: drop duplicates, keeping first occurrences in order. -/
def dedupFirst : List (List Char) → List (List Char) → List (List Char)
  | [], _ => []
  | a :: rest, seen =>
      if a ∈ seen then dedupFirst rest seen else a :: dedupFirst rest (a :: seen)

/-- Lines 56-64: the emitted `snapshot` entries, one sequential token id per
address, in first-appearance order. -/
def processOgSnapshot (rows : List OgRow) : List (List Char × List (List Char)) :=
  (dedupFirst (sepoliaAddresses rows) []).enum.map (fun p => (p.2, [pyHex (p.1 + 1)]))

/-- Two CSV rows whose Sepolia addresses arrive in descending order. -/
def rowB : OgRow := ⟨['0', 'x', 'b'], sepoliaChars, []⟩

def rowA : OgRow := ⟨['0', 'x', 'a'], sepoliaChars, []⟩

/-! ### Token-id canonical form (claim C4) -/

def hexAlphabet : List Char := (List.range 16).map hexDigitChar

/-- A record whose token id arrives as the padded upper-case hex string
`"0x0A"`: lines 130-131 store it verbatim. -/
def nftVerbatim : RawNft := { ownerAddress := some (.vStr ['0', 'x', 'a']),
                              tokenId := some (.vStr ['0', 'x', '0', 'A']) }

/-! ### PaginatedCollector

Models the `while True` pagination loops of `scrape_token_ids.py:44-127` and
`scrape_holders.py:54-156`: fetch a page, break on transport failure or an
explicit `error` payload field, extract records, and continue only while the
`nextPageKey` is truthy and the page was non-empty. -/

/-- One parsed page payload. -/
inductive PageResp where
  | err (msg : List Char)
  | page (nfts : List RawNft) (nextPageKey : Option (List Char))

/-- One fetch outcome: a raised transport error, or a parsed payload. -/
inductive FetchResult where
  | fail
  | ok (resp : PageResp)

/-- Python truthiness of the pagination cursor (`if not next_page_key`). -/
def keyTruthy : Option (List Char) → Bool
  | none => false
  | some s => !s.isEmpty

def isHexDigit (c : Char) : Bool :=
  (48 ≤ c.toNat && c.toNat ≤ 57) || (97 ≤ c.toNat && c.toNat ≤ 102) ||
    (65 ≤ c.toNat && c.toNat ≤ 70)

/-- Token-id conversion of `scrape_token_ids.py:94-102` (`is not None` check,
hex parse for `0x` strings, `int()` otherwise; a parse failure raises). -/
def extractTokenId (tk : Option JsonVal) : Except Unit (Option Nat) :=
  match tk with
  | none => .ok none
  | some .vNull => .ok none
  | some (.vInt n) => .ok (some n)
  | some (.vStr s) =>
      if startsWith0x s then
        (if !(s.drop 2).isEmpty && (s.drop 2).all isHexDigit
         then .ok (some (hexVal (s.drop 2))) else .error ())
      else
        match decValue s with
        | some n => .ok (some n)
        | none => .error ()

/-- The per-page record loop of `scrape_token_ids.py:82-102`, appending ids
to the running list; the abort flag marks a raised conversion error. -/
def runTokenPage : List RawNft → List Nat → List Nat × Bool
  | [], acc => (acc, false)
  | r :: rs, acc =>
      match extractTokenId (lookupTokenId r) with
      | .error _ => (acc, true)
      | .ok none => runTokenPage rs acc
      | .ok (some n) => runTokenPage rs (acc ++ [n])

/-- The pagination loop of `get_collection_nfts`, driven by the successive
fetch outcomes; an exhausted stream acts like a transport failure. -/
def collectTokenIds : List FetchResult → List Nat → List Nat
  | [], acc => acc
  | f :: rest, acc =>
      match f with
      | .fail => acc
      | .ok (.err _) => acc
      | .ok (.page nfts key) =>
          let r := runTokenPage nfts acc
          if r.2 then r.1
          else if keyTruthy key && nfts.length != 0 then collectTokenIds rest r.1
          else r.1

/-- The pagination loop of `get_collection_holders`. -/
def collectHolders (isStarknet : Bool) : List FetchResult → HolderMap → HolderMap
  | [], m => m
  | f :: rest, m =>
      match f with
      | .fail => m
      | .ok (.err _) => m
      | .ok (.page nfts key) =>
          let r := aggRecords isStarknet nfts m
          if r.2 then r.1
          else if keyTruthy key && nfts.length != 0 then collectHolders isStarknet rest r.1
          else r.1

/-- Returns `true` for outcomes that terminate collection: a transport failure or a
payload carrying an explicit `error` field. -/
def isTerminal : FetchResult → Bool
  | .fail => true
  | .ok (.err _) => true
  | .ok (.page _ _) => false

/-- The error payload of the C5 scenario, `{error: "rate limited"}`. -/
def rateLimitedMsg : List Char :=
  ['r', 'a', 't', 'e', ' ', 'l', 'i', 'm', 'i', 't', 'e', 'd']

/-! ### CLI exit semantics (claim C9)

`scrape_holders.py:289-294` and `scrape_token_ids.py:222-228`: save the
output and exit 0 when anything was collected, else skip the write and
`sys.exit(1)`.  The pair returned is (output file written?, exit status). -/

def scrapeHoldersMain (isStarknet : Bool) (fetches : List FetchResult) : Bool × Nat :=
  let snap := buildSnapshotData (collectHolders isStarknet fetches [])
  if snap.isEmpty then (false, 1) else (true, 0)

def scrapeTokenIdsMain (fetches : List FetchResult) : Bool × Nat :=
  let ids := collectTokenIds fetches []
  if ids.isEmpty then (false, 1) else (true, 0)

/-! ### Lorenz curve and Gini coefficient (claims C1, C10)

Models `create_lorenz_curve` of `src/scripts/analyze_distribution.py:113-150`
exactly over `ℚ`: sort amounts ascending, cumulative holder percentages
`(i+1)/n*100`, cumulative token percentages `cumsum/total*100`, area under
the Lorenz curve via `np.trapz` (which integrates only over the sample
points — no `(0, 0)` origin is prepended), and
`gini = (5000 - area) / 5000`. -/

def ratLe (a b : ℚ) : Bool := decide (a ≤ b)

/-- Running cumulative sums (`cumsum`). -/
def cumsumAux (acc : ℚ) : List ℚ → List ℚ
  | [] => []
  | x :: xs => (acc + x) :: cumsumAux (acc + x) xs

/-- Models `np.trapz` over a list of `(x, y)` sample points:
`Σ (x_{i+1} - x_i) * (y_i + y_{i+1}) / 2`; zero for fewer than two points. -/
def trapz : List (ℚ × ℚ) → ℚ
  | (x1, y1) :: (x2, y2) :: rest => (x2 - x1) * (y1 + y2) / 2 + trapz ((x2, y2) :: rest)
  | _ => 0

/-- The Gini coefficient computed by `create_lorenz_curve`. -/
def lorenzGini (amounts : List ℚ) : ℚ :=
  let s := sortLe ratLe amounts
  let total := s.sum
  let n : ℚ := (s.length : ℚ)
  let xs := (List.range s.length).map (fun i : Nat => (Nat.cast i + 1) / n * 100)
  let ys := (cumsumAux 0 s).map (fun c => c / total * 100)
  (5000 - trapz (xs.zip ys)) / 5000

/-! ### Theorems -/

/-! ### Character and string helpers -/

/-- Round-trip `(Char.ofNat n).toNat = n` for code points below the surrogate range. -/
theorem charOfNat_toNat (n : Nat) (h : n < 0xD800) : (Char.ofNat n).toNat = n := by
  unfold Char.ofNat
  rw [dif_pos (Or.inl h)]
  rfl

/-- Lower-casing via `Char.toLower` (what Python's `str.lower` performs on
address/hex characters) is idempotent on every character. -/
theorem toLower_idem (c : Char) : Char.toLower (Char.toLower c) = Char.toLower c := by
  simp only [Char.toLower]
  by_cases h : c.toNat ≥ 65 ∧ c.toNat ≤ 90
  · rw [if_pos h]
    have hv : (Char.ofNat (c.toNat + 32)).toNat = c.toNat + 32 :=
      charOfNat_toNat _ (by omega)
    rw [if_neg (by rw [hv]; omega)]
  · rw [if_neg h, if_neg h]

theorem lowerStr_idem (s : List Char) : lowerStr (lowerStr s) = lowerStr s := by
  simp only [lowerStr, List.map_map]
  exact List.map_congr_left (fun c _ => toLower_idem c)

theorem mem_lowerStr_fixed {s : List Char} {c : Char} (h : c ∈ lowerStr s) :
    Char.toLower c = c := by
  simp only [lowerStr, List.mem_map] at h
  obtain ⟨d, _, rfl⟩ := h
  exact toLower_idem d

theorem toLower_zero : Char.toLower '0' = '0' := by decide

theorem toLower_x : Char.toLower 'x' = 'x' := by decide

/-- The canonicalized address always starts with `0x` and, apart from the
Starknet `0x0` special case, its body consists of lower-cased characters of
the prefixed input. -/
theorem addrCanon_false_eq (raw : List Char) :
    addrCanon false raw =
      lowerStr (if startsWith0x raw then raw else '0' :: 'x' :: raw) := rfl

theorem lowerStr_startsWith0x (a0 : List Char) (h : startsWith0x a0 = true) :
    startsWith0x (lowerStr a0) = true := by
  match a0 with
  | [] => exact absurd h (by decide)
  | [c] =>
      exfalso
      simp only [startsWith0x] at h
      exact Bool.noConfusion h
  | c :: d :: rest =>
      have hc : c = '0' ∧ d = 'x' := by
        by_contra hcd
        have : startsWith0x (c :: d :: rest) = false := by
          simp only [startsWith0x]
          split
          · rename_i heq
            exact absurd (by injection heq with h1 h2; injection h2 with h2 _; exact ⟨h1, h2⟩) hcd
          · rfl
        rw [this] at h
        exact absurd h (by decide)
      obtain ⟨rfl, rfl⟩ := hc
      simp only [lowerStr, List.map_cons, toLower_zero, toLower_x, startsWith0x]

theorem startsWith0x_prefixed (raw : List Char) :
    startsWith0x (if startsWith0x raw then raw else '0' :: 'x' :: raw) = true := by
  by_cases h : startsWith0x raw = true
  · rw [if_pos h]; exact h
  · rw [if_neg h]; rfl

theorem lowerStr_prefixed (raw : List Char) :
    startsWith0x (lowerStr (if startsWith0x raw then raw else '0' :: 'x' :: raw)) = true :=
  lowerStr_startsWith0x _ (startsWith0x_prefixed raw)

theorem dropWhile_dropWhile (p : Char → Bool) (l : List Char) :
    List.dropWhile p (List.dropWhile p l) = List.dropWhile p l := by
  rw [List.dropWhile_eq_self_iff]
  intro hl
  exact List.dropWhile_get_zero_not p l hl

theorem addrCanon_true_eq (raw : List Char) :
    addrCanon true raw =
      (let a1 := lowerStr (if startsWith0x raw then raw else '0' :: 'x' :: raw)
       let stripped := (a1.drop 2).dropWhile (fun c => c = '0')
       if stripped.isEmpty then ['0', 'x', '0'] else '0' :: 'x' :: stripped) := rfl

theorem addrCanon_zero_fixed : addrCanon true ['0', 'x', '0'] = ['0', 'x', '0'] := by decide

/-- Canonicalizing an already-canonical Starknet address whose stripped body is
non-empty returns it unchanged. -/
theorem addrCanon_true_stable (raw : List Char) :
    let a1 := lowerStr (if startsWith0x raw then raw else '0' :: 'x' :: raw)
    let stripped := (a1.drop 2).dropWhile (fun c => c = '0')
    stripped.isEmpty = false →
    addrCanon true ('0' :: 'x' :: stripped) = '0' :: 'x' :: stripped := by
  intro a1 stripped hne
  have hsub : ∀ c ∈ stripped, c ∈ a1 := by
    intro c hc
    exact List.mem_of_mem_drop ((List.dropWhile_sublist _).mem hc)
  have hfix : lowerStr ('0' :: 'x' :: stripped) = '0' :: 'x' :: stripped := by
    simp only [lowerStr, List.map_cons, toLower_zero, toLower_x, List.cons.injEq, true_and]
    rw [List.map_congr_left (fun c hc => mem_lowerStr_fixed (hsub c hc))]
    exact List.map_id stripped
  have hdw : List.dropWhile (fun c => c = '0') stripped = stripped :=
    dropWhile_dropWhile _ _
  rw [addrCanon_true_eq]
  simp only [startsWith0x, if_pos]
  rw [hfix]
  simp only [List.drop_succ_cons, List.drop_zero, hdw, hne, Bool.false_eq_true, if_false]

/-- Claim C6: address canonicalization is idempotent for every raw address
string and both chain kinds (Starknet-like with zero-stripping, and others). -/
theorem addrCanon_idem (isStarknet : Bool) (raw : List Char) :
    addrCanon isStarknet (addrCanon isStarknet raw) = addrCanon isStarknet raw := by
  cases isStarknet with
  | false =>
      rw [addrCanon_false_eq raw, addrCanon_false_eq, if_pos (lowerStr_prefixed raw)]
      exact lowerStr_idem _
  | true =>
      rw [addrCanon_true_eq raw]
      by_cases he : ((lowerStr (if startsWith0x raw then raw else '0' :: 'x' :: raw)).drop 2
          |>.dropWhile (fun c => c = '0')).isEmpty = true
      · simp only [he, if_pos]
        exact addrCanon_zero_fixed
      · have he' := Bool.eq_false_iff.mpr he
        simp only [he', Bool.false_eq_true, if_neg, if_false]
        exact addrCanon_true_stable raw he'

theorem hexDigitVal_hexDigitChar : ∀ d, d < 16 → hexDigitVal (hexDigitChar d) = d := by decide

theorem hexVal_append_digit (l : List Char) (c : Char) :
    hexVal (l ++ [c]) = 16 * hexVal l + hexDigitVal c := by
  unfold hexVal
  rw [List.foldl_append]
  rfl

theorem hexVal_toHexCoreAux : ∀ fuel n, n ≤ fuel → hexVal (toHexCoreAux fuel n) = n := by
  intro fuel
  induction fuel with
  | zero =>
      intro n hn
      interval_cases n
      rfl
  | succ fuel ih =>
      intro n hn
      match n with
      | 0 => rfl
      | m + 1 =>
          rw [toHexCoreAux, hexVal_append_digit,
            ih ((m + 1) / 16)
              (Nat.le_trans (Nat.le_of_lt_succ (Nat.div_lt_self (Nat.succ_pos m) (by omega)))
                (Nat.le_of_succ_le_succ hn)),
            hexDigitVal_hexDigitChar _ (Nat.mod_lt _ (by omega))]
          omega

theorem hexVal_toHexCore (n : Nat) : hexVal (toHexCore n) = n :=
  hexVal_toHexCoreAux n n (Nat.le_refl n)

/-- Claim C7: for every non-negative integer `v`,
`toInternal (toHex v) = v` (hex round-trip law). -/
theorem toInternal_pyHex (v : Nat) : toInternal (pyHex v) = v := by
  unfold toInternal pyHex
  have h0 : startsWith0x ('0' :: 'x' :: (if v = 0 then ['0'] else toHexCore v)) = true := rfl
  rw [if_pos h0]
  by_cases hv : v = 0
  · subst hv; rfl
  · simp only [hv, if_neg, if_false, List.drop_succ_cons, List.drop_zero]
    exact hexVal_toHexCore v

theorem mem_setAdd (s : List (List Char)) (t' t : List Char) :
    t ∈ setAdd s t' ↔ t ∈ s ∨ t = t' := by
  unfold setAdd
  split
  · rename_i hmem
    constructor
    · exact Or.inl
    · rintro (h | rfl)
      · exact h
      · exact hmem
  · simp [List.mem_append]

theorem mem_hmTokens_hmInsert (m : HolderMap) (a' t' a t : List Char) :
    t ∈ hmTokens (hmInsert m a' t') a ↔ t ∈ hmTokens m a ∨ (a = a' ∧ t = t') := by
  induction m with
  | nil =>
      simp only [hmInsert, hmTokens]
      by_cases h : a' = a
      · subst h
        simp [eq_comm]
      · rw [if_neg h]
        simp only [List.not_mem_nil, false_or, false_iff, not_and]
        intro ha
        exact absurd ha.symm h
  | cons hd rest ih =>
      obtain ⟨b, s⟩ := hd
      simp only [hmInsert, hmTokens]
      by_cases hba' : b = a'
      · subst hba'
        simp only [if_pos rfl, hmTokens]
        by_cases hba : b = a
        · subst hba
          rw [if_pos rfl, if_pos rfl, mem_setAdd]
          simp
        · rw [if_neg hba, if_neg hba]
          constructor
          · exact Or.inl
          · rintro (h | ⟨rfl, rfl⟩)
            · exact h
            · exact absurd rfl hba
      · rw [if_neg hba']
        simp only [hmTokens]
        by_cases hba : b = a
        · subst hba
          rw [if_pos rfl, if_pos rfl]
          constructor
          · exact Or.inl
          · rintro (h | ⟨rfl, rfl⟩)
            · exact h
            · exact absurd rfl hba'
        · rw [if_neg hba, if_neg hba]
          exact ih

theorem mem_hmTokens_aggRecords (isStarknet : Bool) (rs : List RawNft)
    (hok : ∀ r ∈ rs, isErr (extractRecord isStarknet r) = false) (m : HolderMap)
    (a t : List Char) :
    t ∈ hmTokens (aggRecords isStarknet rs m).1 a ↔
      t ∈ hmTokens m a ∨ ∃ r ∈ rs, extractRecord isStarknet r = .ok (some (a, t)) := by
  induction rs generalizing m with
  | nil => simp [aggRecords]
  | cons r rs ih =>
      have hr : isErr (extractRecord isStarknet r) = false := hok r (List.mem_cons_self r rs)
      have hok' : ∀ x ∈ rs, isErr (extractRecord isStarknet x) = false :=
        fun x hx => hok x (List.mem_cons_of_mem r hx)
      match hres : extractRecord isStarknet r with
      | .error e =>
          rw [hres] at hr
          exact Bool.noConfusion hr
      | .ok none =>
          simp only [aggRecords, hres, ih hok' m]
          constructor
          · rintro (h | ⟨x, hx, he⟩)
            · exact Or.inl h
            · exact Or.inr ⟨x, List.mem_cons_of_mem r hx, he⟩
          · rintro (h | ⟨x, hx, he⟩)
            · exact Or.inl h
            · rcases List.mem_cons.mp hx with rfl | hx'
              · rw [hres] at he
                exact absurd (Option.noConfusion (Except.ok.inj he)) (fun h => h)
              · exact Or.inr ⟨x, hx', he⟩
      | .ok (some (a', t')) =>
          simp only [aggRecords, hres, ih hok', mem_hmTokens_hmInsert]
          constructor
          · rintro ((h | ⟨rfl, rfl⟩) | ⟨x, hx, he⟩)
            · exact Or.inl h
            · exact Or.inr ⟨r, List.mem_cons_self r rs, hres⟩
            · exact Or.inr ⟨x, List.mem_cons_of_mem r hx, he⟩
          · rintro (h | ⟨x, hx, he⟩)
            · exact Or.inl (Or.inl h)
            · rcases List.mem_cons.mp hx with rfl | hx'
              · rw [hres] at he
                obtain ⟨h1, h2⟩ := Prod.mk.injEq .. ▸ Option.some.inj (Except.ok.inj he)
                exact Or.inl (Or.inr ⟨h1.symm ▸ rfl, h2.symm ▸ rfl⟩)
              · exact Or.inr ⟨x, hx', he⟩

/-- Claim C8 (amended): holder aggregation is order-insensitive provided no
record raises during token-id conversion — permuting the record sequence
yields a holder map with the same token set at every address. -/
theorem aggRecords_perm_invariant (isStarknet : Bool) (rs₁ rs₂ : List RawNft)
    (hperm : rs₁.Perm rs₂)
    (hok : ∀ r ∈ rs₁, isErr (extractRecord isStarknet r) = false) (a t : List Char) :
    t ∈ hmTokens (aggRecords isStarknet rs₁ []).1 a ↔
      t ∈ hmTokens (aggRecords isStarknet rs₂ []).1 a := by
  have hok₂ : ∀ r ∈ rs₂, isErr (extractRecord isStarknet r) = false :=
    fun r hr => hok r (hperm.symm.subset hr)
  rw [mem_hmTokens_aggRecords _ _ hok, mem_hmTokens_aggRecords _ _ hok₂]
  apply or_congr Iff.rfl
  constructor
  · rintro ⟨r, hr, he⟩
    exact ⟨r, hperm.subset hr, he⟩
  · rintro ⟨r, hr, he⟩
    exact ⟨r, hperm.symm.subset hr, he⟩

/-- Claim C8 counterexample: `[nftBad, nftGood]` and its permutation
`[nftGood, nftBad]` aggregate to different holder maps — the abort caused by
`nftBad`'s unparseable token id loses `nftGood` in one order but not the
other, so aggregation is not order-insensitive as claimed. -/
theorem aggRecords_not_perm_invariant :
    ([nftBad, nftGood] : List RawNft).Perm [nftGood, nftBad] ∧
    ¬ (['0', 'x', '1'] ∈ hmTokens (aggRecords true [nftBad, nftGood] []).1 ['0', 'x', 'b'] ↔
       ['0', 'x', '1'] ∈ hmTokens (aggRecords true [nftGood, nftBad] []).1 ['0', 'x', 'b']) :=
  ⟨List.Perm.swap _ _ _, by decide⟩

/-- Witness for C8 (amended) at concrete input: two error-free records,
swapped, give the same token set for holder `0xb`. -/
theorem aggRecords_perm_invariant_witness :
    ['0', 'x', '1'] ∈ hmTokens (aggRecords true [nftGood, nftGood2] []).1 ['0', 'x', 'b'] ↔
      ['0', 'x', '1'] ∈ hmTokens (aggRecords true [nftGood2, nftGood] []).1 ['0', 'x', 'b'] :=
  aggRecords_perm_invariant true _ _ (List.Perm.swap _ _ _) (by decide) _ _

theorem extractCore_skip_iff (sk : Bool) (ow tk : Option JsonVal) :
    extractCore sk ow tk = .ok none ↔
      ¬(truthyOpt ow = true ∧ truthyOpt tk = true) := by
  rcases ow with _ | (os | m | _)
  · simp [extractCore, truthyOpt]
  · rcases tk with _ | (ts | n | _)
    · simp [extractCore, truthyOpt]
    · by_cases h1 : os.isEmpty <;> by_cases h2 : ts.isEmpty
      · simp [extractCore, truthyOpt, truthy, h1, h2]
      · simp [extractCore, truthyOpt, truthy, h1, h2]
      · simp [extractCore, truthyOpt, truthy, h1, h2]
      · simp only [extractCore, truthyOpt, truthy, h1, h2, Bool.not_false, Bool.and_self,
          if_true, not_true_eq_false, and_true, iff_false]
        split
        · simp
        · rcases hdv : decValue ts with _ | k <;> simp [hdv]
    · by_cases h1 : os.isEmpty <;> by_cases h2 : n = 0 <;>
        simp [extractCore, truthyOpt, truthy, h1, h2]
    · simp [extractCore, truthyOpt, truthy]
  · rcases tk with _ | (ts | n | _)
    · simp [extractCore, truthyOpt]
    · by_cases h1 : m = 0 <;> by_cases h2 : ts.isEmpty <;>
        simp [extractCore, truthyOpt, truthy, h1, h2]
    · by_cases h1 : m = 0 <;> by_cases h2 : n = 0 <;>
        simp [extractCore, truthyOpt, truthy, h1, h2]
    · simp [extractCore, truthyOpt, truthy]
  · simp [extractCore, truthyOpt, truthy]

/-- Claim C2 (amended): the aggregation skips a record exactly when the
owner-alias lookup or the token-id-alias lookup yields no value or a
Python-falsy value (empty string, integer `0`, or null); skipped records
never raise.  A record with a truthy string owner and a truthy token id that
is an integer, a `0x`-prefixed string, or a decimal string is canonicalized
and inserted. -/
theorem extractRecord_skip_iff (sk : Bool) (r : RawNft) :
    (extractRecord sk r = .ok none ↔
      ¬(truthyOpt (lookupOwner r) = true ∧ truthyOpt (lookupTokenId r) = true)) ∧
    (∀ os n, lookupOwner r = some (.vStr os) → os ≠ [] →
       lookupTokenId r = some (.vInt n) → n ≠ 0 →
       extractRecord sk r = .ok (some (addrCanon sk os, pyHex n))) ∧
    (∀ os ts, lookupOwner r = some (.vStr os) → os ≠ [] →
       lookupTokenId r = some (.vStr ts) → startsWith0x ts = true →
       extractRecord sk r = .ok (some (addrCanon sk os, ts))) ∧
    (∀ os ts m, lookupOwner r = some (.vStr os) → os ≠ [] →
       lookupTokenId r = some (.vStr ts) → startsWith0x ts = false →
       decValue ts = some m →
       extractRecord sk r = .ok (some (addrCanon sk os, pyHex m))) := by
  refine ⟨extractCore_skip_iff sk _ _, ?_, ?_, ?_⟩
  · intro os n ho hos ht hn
    unfold extractRecord
    rw [ho, ht]
    unfold extractCore
    rw [if_pos (by
      simp [truthyOpt, truthy, hos, hn, List.isEmpty_iff])]
  · intro os ts ho hos ht hts
    unfold extractRecord
    rw [ho, ht]
    unfold extractCore
    rw [if_pos (by
      simp only [truthyOpt, truthy, Bool.and_eq_true, Bool.not_eq_true']
      exact ⟨by simp [List.isEmpty_iff, hos],
             by simp [List.isEmpty_iff]; rintro rfl; exact Bool.noConfusion hts⟩)]
    simp only [hts, if_true]
  · intro os ts m ho hos ht hts hdv
    unfold extractRecord
    rw [ho, ht]
    unfold extractCore
    rw [if_pos (by
      simp only [truthyOpt, truthy, Bool.and_eq_true, Bool.not_eq_true']
      refine ⟨by simp [List.isEmpty_iff, hos], ?_⟩
      cases hem : ts.isEmpty with
      | false => rfl
      | true =>
          exfalso
          unfold decValue at hdv
          rw [hem] at hdv
          simp at hdv)]
    simp only [hts, Bool.false_eq_true, if_false, hdv]

/-- Claim C2 counterexample: `nftZeroTok` carries both an owner address and a
token id (the integer `0`), yet the aggregation skips it — the truthiness
guard `if owner_address and token_id:` treats `0` as missing. -/
theorem extractRecord_skips_zero_tokenId :
    lookupOwner nftZeroTok = some (.vStr ['0', 'x', 'a']) ∧
    lookupTokenId nftZeroTok = some (.vInt 0) ∧
    extractRecord true nftZeroTok = .ok none :=
  ⟨rfl, rfl, rfl⟩

/-- Witness for C2 (amended) at a concrete record: `nftGood` (truthy owner,
integer token id 1) is canonicalized and inserted. -/
theorem extractRecord_skip_iff_witness :
    extractRecord true nftGood = .ok (some (addrCanon true ['0', 'x', 'b'], pyHex 1)) :=
  (extractRecord_skip_iff true nftGood).2.1 ['0', 'x', 'b'] 1 rfl (by decide) rfl (by decide)

theorem mem_insertLe {α : Type} (le : α → α → Bool) (x : α) (l : List α) (a : α) :
    a ∈ insertLe le x l ↔ a = x ∨ a ∈ l := by
  induction l with
  | nil => simp [insertLe]
  | cons y ys ih =>
      simp only [insertLe]
      split
      · simp
      · simp only [List.mem_cons, ih]
        tauto

theorem mem_sortLe {α : Type} (le : α → α → Bool) (l : List α) (a : α) :
    a ∈ sortLe le l ↔ a ∈ l := by
  induction l with
  | nil => simp [sortLe]
  | cons x xs ih => simp [sortLe, mem_insertLe, ih]

theorem pairwise_insertLe {α : Type} (le : α → α → Bool)
    (htot : ∀ a b, le a b = true ∨ le b a = true)
    (htrans : ∀ a b c, le a b = true → le b c = true → le a c = true)
    (x : α) (l : List α) (hl : l.Pairwise (fun a b => le a b = true)) :
    (insertLe le x l).Pairwise (fun a b => le a b = true) := by
  induction l with
  | nil => simp [insertLe]
  | cons y ys ih =>
      rcases List.pairwise_cons.mp hl with ⟨hy, hys⟩
      simp only [insertLe]
      by_cases hxy : le x y = true
      · rw [if_pos hxy]
        refine List.pairwise_cons.mpr ⟨?_, hl⟩
        intro z hz
        rcases List.mem_cons.mp hz with rfl | hz'
        · exact hxy
        · exact htrans x y z hxy (hy z hz')
      · rw [if_neg hxy]
        refine List.pairwise_cons.mpr ⟨?_, ih hys⟩
        intro z hz
        rcases (mem_insertLe le x ys z).mp hz with rfl | hz'
        · rcases htot z y with h | h
          · exact absurd h hxy
          · exact h
        · exact hy z hz'

theorem pairwise_sortLe {α : Type} (le : α → α → Bool)
    (htot : ∀ a b, le a b = true ∨ le b a = true)
    (htrans : ∀ a b c, le a b = true → le b c = true → le a c = true)
    (l : List α) :
    (sortLe le l).Pairwise (fun a b => le a b = true) := by
  induction l with
  | nil => simp [sortLe]
  | cons x xs ih => exact pairwise_insertLe le htot htrans x _ ih

theorem listCharLe_total : ∀ a b, listCharLe a b = true ∨ listCharLe b a = true := by
  intro a
  induction a with
  | nil => intro b; exact Or.inl rfl
  | cons c cs ih =>
      intro b
      cases b with
      | nil => exact Or.inr rfl
      | cons d ds =>
          simp only [listCharLe]
          rcases Nat.lt_trichotomy c.toNat d.toNat with h | h | h
          · left; rw [if_pos h]
          · rw [if_neg (by omega), if_neg (by omega), if_neg (by omega), if_neg (by omega)]
            exact ih ds
          · right; rw [if_pos h]

theorem listCharLe_trans :
    ∀ a b c, listCharLe a b = true → listCharLe b c = true → listCharLe a c = true := by
  intro a
  induction a with
  | nil => intro b c _ _; rfl
  | cons x xs ih =>
      intro b c hab hbc
      cases b with
      | nil => exact absurd hab (by simp [listCharLe])
      | cons y ys =>
          cases c with
          | nil => exact absurd hbc (by simp [listCharLe])
          | cons z zs =>
              simp only [listCharLe] at hab hbc ⊢
              rcases Nat.lt_trichotomy x.toNat y.toNat with h1 | h1 | h1 <;>
                rcases Nat.lt_trichotomy y.toNat z.toNat with h2 | h2 | h2
              all_goals first
                | (rw [if_pos (by omega)])
                | (rw [if_neg (by omega), if_neg (by omega)]
                   rw [if_neg (by omega), if_neg (by omega)] at hab
                   rw [if_neg (by omega), if_neg (by omega)] at hbc
                   exact ih ys zs hab hbc)
                | (exfalso
                   first
                     | (rw [if_neg (by omega), if_pos (by omega)] at hab
                        exact Bool.noConfusion hab)
                     | (rw [if_neg (by omega), if_pos (by omega)] at hbc
                        exact Bool.noConfusion hbc))

theorem tokenLe_total : ∀ a b, tokenLe a b = true ∨ tokenLe b a = true := by
  intro a b
  simp only [tokenLe, decide_eq_true_eq]
  exact Nat.le_total _ _

theorem tokenLe_trans :
    ∀ a b c, tokenLe a b = true → tokenLe b c = true → tokenLe a c = true := by
  intro a b c hab hbc
  simp only [tokenLe, decide_eq_true_eq] at hab hbc ⊢
  exact Nat.le_trans hab hbc

/-- Claim C3 counterexample: `process_og_snapshot` emits snapshot entries in
CSV first-appearance order, not sorted by address — with rows `0xb`, `0xa`
the document lists `0xb` before `0xa`. -/
theorem processOg_not_sorted :
    processOgSnapshot [rowB, rowA] =
      [(['0', 'x', 'b'], [['0', 'x', '1']]), (['0', 'x', 'a'], [['0', 'x', '2']])] ∧
    ¬ ((processOgSnapshot [rowB, rowA]).map Prod.fst).Pairwise
        (fun a b => listCharLe a b = true) := by
  refine ⟨by decide, ?_⟩
  intro h
  have hhd : ((processOgSnapshot [rowB, rowA]).map Prod.fst) =
      ['0', 'x', 'b'] :: [['0', 'x', 'a']] := by decide
  rw [hhd] at h
  have := (List.pairwise_cons.mp h).1 ['0', 'x', 'a'] (by simp)
  exact Bool.noConfusion this

/-- Claim C3 (amended): every snapshot built by `get_collection_holders` has
its entries sorted ascending by address (lexicographic) and each token-id
list sorted ascending by `int(x, 16)`; `process_og_snapshot` documents keep
CSV first-appearance address order, with each inner token-id sequence a
singleton (hence trivially sorted). -/
theorem snapshot_sorted_amended :
    (∀ m : HolderMap,
      ((buildSnapshotData m).map Prod.fst).Pairwise (fun a b => listCharLe a b = true) ∧
      ∀ p ∈ buildSnapshotData m, p.2.Pairwise (fun a b => intBase16 a ≤ intBase16 b)) ∧
    (∀ rows : List OgRow,
      (processOgSnapshot rows).map Prod.fst = dedupFirst (sepoliaAddresses rows) [] ∧
      ∀ p ∈ processOgSnapshot rows,
        p.2.Pairwise (fun a b => intBase16 a ≤ intBase16 b)) := by
  constructor
  · intro m
    constructor
    · unfold buildSnapshotData
      rw [List.map_map, List.pairwise_map]
      have := pairwise_sortLe (fun p q : List Char × List (List Char) => listCharLe p.1 q.1)
        (fun a b => listCharLe_total a.1 b.1)
        (fun a b c => listCharLe_trans a.1 b.1 c.1) m
      exact this
    · intro p hp
      unfold buildSnapshotData at hp
      rcases List.mem_map.mp hp with ⟨q, _, rfl⟩
      exact (pairwise_sortLe tokenLe tokenLe_total tokenLe_trans q.2).imp
        (fun h => by simpa [tokenLe, decide_eq_true_eq] using h)
  · intro rows
    constructor
    · unfold processOgSnapshot
      rw [List.map_map]
      exact List.enum_map_snd _
    · intro p hp
      unfold processOgSnapshot at hp
      rcases List.mem_map.mp hp with ⟨q, _, rfl⟩
      exact List.pairwise_singleton _ _

/-- Witness for C3 (amended) at a two-holder map: the built snapshot's
address sequence is sorted. -/
theorem snapshot_sorted_amended_witness :
    ((buildSnapshotData [(['0', 'x', 'b'], [['0', 'x', '1']]),
        (['0', 'x', 'a'], [['0', 'x', '2']])]).map Prod.fst).Pairwise
      (fun a b => listCharLe a b = true) :=
  (snapshot_sorted_amended.1 _).1

theorem hexDigitChar_mem_alphabet : ∀ d, d < 16 → hexDigitChar d ∈ hexAlphabet := by decide

theorem toHexCoreAux_alphabet :
    ∀ fuel n c, c ∈ toHexCoreAux fuel n → c ∈ hexAlphabet := by
  intro fuel
  induction fuel with
  | zero =>
      intro n c hc
      simp [toHexCoreAux] at hc
  | succ fuel ih =>
      intro n c hc
      match n with
      | 0 => simp [toHexCoreAux] at hc
      | m + 1 =>
          rw [toHexCoreAux] at hc
          rcases List.mem_append.mp hc with h | h
          · exact ih _ c h
          · rcases List.mem_singleton.mp h with rfl
            exact hexDigitChar_mem_alphabet _ (Nat.mod_lt _ (by omega))

/-- Python's `hex()` never produces the string `0x0A`: its digit characters are all
lower-case and a zero digit is only ever emitted alone. -/
theorem pyHex_ne_verbatim : ¬ ∃ n, pyHex n = ['0', 'x', '0', 'A'] := by
  rintro ⟨n, hn⟩
  unfold pyHex at hn
  have hbody : (if n = 0 then ['0'] else toHexCore n) = ['0', 'A'] := by
    injection hn with _ h1
    injection h1 with _ h2
  by_cases h0 : n = 0
  · rw [if_pos h0] at hbody
    exact absurd hbody (by decide)
  · rw [if_neg h0] at hbody
    have hA : 'A' ∈ toHexCore n := by rw [hbody]; simp
    exact absurd (toHexCoreAux_alphabet n n 'A' hA) (by decide)

/-- Claim C4 counterexample: the snapshot built from `nftVerbatim` stores the
token-id string `"0x0A"` — zero-padded and upper-case — which is not the
output of `hex()` for any value, refuting the claim that every stored token
id is lower-case minimal hex. -/
theorem snapshot_token_not_minimal :
    buildSnapshotData (aggRecords true [nftVerbatim] []).1 =
      [(['0', 'x', 'a'], [['0', 'x', '0', 'A']])] ∧
    ¬ ∃ n, pyHex n = ['0', 'x', '0', 'A'] :=
  ⟨by decide, pyHex_ne_verbatim⟩

theorem hmInsert_tokens_pred (P : List Char → Prop) (m : HolderMap) (a' t' : List Char)
    (hm : ∀ p ∈ m, ∀ t ∈ p.2, P t) (ht' : P t') :
    ∀ p ∈ hmInsert m a' t', ∀ t ∈ p.2, P t := by
  induction m with
  | nil =>
      intro p hp t ht
      rcases List.mem_singleton.mp hp with rfl
      rcases List.mem_singleton.mp ht with rfl
      exact ht'
  | cons hd rest ih =>
      obtain ⟨b, s⟩ := hd
      simp only [hmInsert]
      split
      · intro p hp t ht
        rcases List.mem_cons.mp hp with rfl | hp'
        · rcases (mem_setAdd s t' t).mp ht with h | rfl
          · exact hm (b, s) (List.mem_cons_self _ _) t h
          · exact ht'
        · exact hm p (List.mem_cons_of_mem _ hp') t ht
      · intro p hp t ht
        rcases List.mem_cons.mp hp with rfl | hp'
        · exact hm (b, s) (List.mem_cons_self _ _) t ht
        · exact ih (fun q hq => hm q (List.mem_cons_of_mem _ hq)) p hp' t ht

theorem aggRecords_tokens_pred (isStarknet : Bool) (P : List Char → Prop) :
    ∀ (rs : List RawNft) (m : HolderMap),
      (∀ p ∈ m, ∀ t ∈ p.2, P t) →
      (∀ r ∈ rs, ∀ a t, extractRecord isStarknet r = .ok (some (a, t)) → P t) →
      ∀ p ∈ (aggRecords isStarknet rs m).1, ∀ t ∈ p.2, P t := by
  intro rs
  induction rs with
  | nil =>
      intro m hm _
      simpa [aggRecords] using hm
  | cons r rs ih =>
      intro m hm hrec
      match hres : extractRecord isStarknet r with
      | .error e => simpa [aggRecords, hres] using hm
      | .ok none =>
          simp only [aggRecords, hres]
          exact ih m hm (fun x hx => hrec x (List.mem_cons_of_mem _ hx))
      | .ok (some (a, t)) =>
          simp only [aggRecords, hres]
          exact ih (hmInsert m a t)
            (hmInsert_tokens_pred P m a t hm (hrec r (List.mem_cons_self _ _) a t hres))
            (fun x hx => hrec x (List.mem_cons_of_mem _ hx))

theorem extractCore_token_shape (sk : Bool) (ow tk : Option JsonVal) (a t : List Char)
    (h : extractCore sk ow tk = .ok (some (a, t))) :
    (∃ n, t = pyHex n) ∨ ∃ ts, tk = some (.vStr ts) ∧ startsWith0x ts = true ∧ t = ts := by
  rcases ow with _ | ov
  · simp [extractCore, truthyOpt] at h
  rcases tk with _ | tv
  · simp [extractCore, truthyOpt] at h
  rcases ov with os | m | _
  · rcases tv with ts | n | _
    · simp only [extractCore] at h
      split at h
      · split at h
        · rename_i hsw
          simp only [Except.ok.injEq, Option.some.injEq, Prod.mk.injEq] at h
          exact Or.inr ⟨ts, rfl, hsw, h.2.symm⟩
        · rcases hdv : decValue ts with _ | k <;> rw [hdv] at h
          · exact absurd h (by simp)
          · simp only [Except.ok.injEq, Option.some.injEq, Prod.mk.injEq] at h
            exact Or.inl ⟨k, h.2.symm⟩
      · exact absurd h (by simp)
    · simp only [extractCore] at h
      split at h
      · simp only [Except.ok.injEq, Option.some.injEq, Prod.mk.injEq] at h
        exact Or.inl ⟨n, h.2.symm⟩
      · exact absurd h (by simp)
    · simp [extractCore, truthyOpt, truthy] at h
  · simp only [extractCore] at h
    split at h
    · exact absurd h (by simp)
    · exact absurd h (by simp)
  · simp [extractCore, truthyOpt, truthy] at h

/-- Claim C4 (amended): when every record supplies its token id as an integer
or as a non-`0x`-prefixed numeric string, every token-id string stored in the
built snapshot is a lower-case minimal-digit `0x` hex string (an output of
`hex()`); token ids already supplied as `0x`-prefixed strings are instead
stored verbatim. -/
theorem snapshot_tokens_minimal_hex (sk : Bool) (rs : List RawNft)
    (hnv : ∀ r ∈ rs, ∀ ts, lookupTokenId r = some (.vStr ts) → startsWith0x ts = false) :
    ∀ p ∈ buildSnapshotData (aggRecords sk rs []).1, ∀ t ∈ p.2, ∃ n, t = pyHex n := by
  intro p hp t ht
  unfold buildSnapshotData at hp
  rcases List.mem_map.mp hp with ⟨q, hq, rfl⟩
  rw [mem_sortLe] at hq
  have ht' : t ∈ q.2 := (mem_sortLe _ _ _).mp ht
  refine aggRecords_tokens_pred sk (fun u => ∃ n, u = pyHex n) rs [] (by simp) ?_ q hq t ht'
  intro r hr a' t' hext
  rcases extractCore_token_shape sk _ _ a' t' hext with hsh | ⟨ts, hts, hsw, heq⟩
  · exact hsh
  · rw [hnv r hr ts hts] at hsw
    exact Bool.noConfusion hsw

/-- Witness for C4 (amended): the snapshot built from `nftGood` stores the
token string `"0x1"`, which is `hex(1)`. -/
theorem snapshot_tokens_minimal_hex_witness : ∃ n, ['0', 'x', '1'] = pyHex n :=
  snapshot_tokens_minimal_hex true [nftGood]
    (by
      intro r hr ts hts
      rw [List.mem_singleton] at hr
      subst hr
      exact absurd hts (by simp [lookupTokenId, nftGood]))
    (['0', 'x', 'b'], [['0', 'x', '1']]) (by decide) ['0', 'x', '1'] (by decide)

theorem runTokenPage_snd (rs : List RawNft) :
    ∀ acc acc', (runTokenPage rs acc).2 = (runTokenPage rs acc').2 := by
  induction rs with
  | nil => intro acc acc'; rfl
  | cons r rs ih =>
      intro acc acc'
      match hres : extractTokenId (lookupTokenId r) with
      | .error e => simp [runTokenPage, hres]
      | .ok none => simpa [runTokenPage, hres] using ih acc acc'
      | .ok (some n) => simpa [runTokenPage, hres] using ih (acc ++ [n]) (acc' ++ [n])

theorem aggRecords_snd (isStarknet : Bool) (rs : List RawNft) :
    ∀ m m', (aggRecords isStarknet rs m).2 = (aggRecords isStarknet rs m').2 := by
  induction rs with
  | nil => intro m m'; rfl
  | cons r rs ih =>
      intro m m'
      match hres : extractRecord isStarknet r with
      | .error e => simp [aggRecords, hres]
      | .ok none => simpa [aggRecords, hres] using ih m m'
      | .ok (some (a, t)) =>
          simpa [aggRecords, hres] using ih (hmInsert m a t) (hmInsert m' a t)

/-- Claim C5: when a fetch fails or the payload carries an explicit error
field, both collectors terminate immediately and return exactly the records
accumulated over the earlier (successful, continuing) pages — for the
token-id collector the folded id list, for the holder collector the folded
holder map — regardless of what the stream would have returned later. -/
theorem collector_failure_preserves (isStarknet : Bool)
    (pages : List (List RawNft × Option (List Char)))
    (hgood : ∀ p ∈ pages,
      (runTokenPage p.1 []).2 = false ∧ (aggRecords isStarknet p.1 []).2 = false ∧
      keyTruthy p.2 = true ∧ p.1 ≠ [])
    (e : FetchResult) (he : isTerminal e = true) (rest : List FetchResult) :
    collectTokenIds (pages.map (fun p => .ok (.page p.1 p.2)) ++ e :: rest) [] =
      pages.foldl (fun acc p => (runTokenPage p.1 acc).1) [] ∧
    collectHolders isStarknet (pages.map (fun p => .ok (.page p.1 p.2)) ++ e :: rest) [] =
      pages.foldl (fun m p => (aggRecords isStarknet p.1 m).1) [] := by
  have main : ∀ (ps : List (List RawNft × Option (List Char))),
      (∀ p ∈ ps,
        (runTokenPage p.1 []).2 = false ∧ (aggRecords isStarknet p.1 []).2 = false ∧
        keyTruthy p.2 = true ∧ p.1 ≠ []) →
      ∀ (acc : List Nat) (m : HolderMap),
      collectTokenIds (ps.map (fun p => .ok (.page p.1 p.2)) ++ e :: rest) acc =
        ps.foldl (fun a p => (runTokenPage p.1 a).1) acc ∧
      collectHolders isStarknet (ps.map (fun p => .ok (.page p.1 p.2)) ++ e :: rest) m =
        ps.foldl (fun mm p => (aggRecords isStarknet p.1 mm).1) m := by
    intro ps
    induction ps with
    | nil =>
        intro _ acc m
        match e, he with
        | .fail, _ => exact ⟨rfl, rfl⟩
        | .ok (.err msg), _ => exact ⟨rfl, rfl⟩
    | cons p ps ih =>
        intro hg acc m
        obtain ⟨h1, h2, h3, h4⟩ := hg p (List.mem_cons_self _ _)
        have hg' := fun q hq => hg q (List.mem_cons_of_mem _ hq)
        have hlen : (p.1.length != 0) = true := by
          cases hp : p.1 with
          | nil => exact absurd hp h4
          | cons x xs => simp [hp]
        constructor
        · simp only [List.map_cons, List.cons_append, collectTokenIds,
            runTokenPage_snd p.1 acc [], h1, Bool.false_eq_true, if_false, h3, hlen,
            Bool.and_self, if_true, List.foldl_cons]
          exact (ih hg' ((runTokenPage p.1 acc).1) m).1
        · simp only [List.map_cons, List.cons_append, collectHolders,
            aggRecords_snd isStarknet p.1 m [], h2, Bool.false_eq_true, if_false, h3, hlen,
            Bool.and_self, if_true, List.foldl_cons]
          exact (ih hg' acc ((aggRecords isStarknet p.1 m).1)).2
  exact main pages hgood [] []

/-- Witness for C5 at the spec's scenario: page 1 yields 50 records (token
id 1 each) with a next cursor, page 2 answers `{error: "rate limited"}` —
the returned collection is exactly those 50 records. -/
theorem collector_failure_preserves_witness :
    collectTokenIds
      [FetchResult.ok (.page (List.replicate 50 nftGood) (some ['k'])),
       FetchResult.ok (.err rateLimitedMsg)] [] = List.replicate 50 1 := by
  have h := collector_failure_preserves true [(List.replicate 50 nftGood, some ['k'])]
    (by decide) (FetchResult.ok (.err rateLimitedMsg)) (by decide) []
  exact h.1.trans (by decide)

theorem exitPair_spec {α : Type} (l : List α) :
    ((if l.isEmpty then ((false : Bool), (1 : Nat)) else (true, 0)) = (false, 1) ↔ l = []) ∧
    ((if l.isEmpty then ((false : Bool), (1 : Nat)) else (true, 0)) = (true, 0) ↔ l ≠ []) := by
  by_cases h : l.isEmpty = true
  · rw [if_pos h]
    have hl := List.isEmpty_iff.mp h
    simp [hl]
  · rw [if_neg h]
    have hl : l ≠ [] := fun hc => h (by simp [hc])
    simp [hl]

/-- Claim C9: a run that collects zero records writes no output file and
exits with status 1; a run that collects at least one record writes the
output and exits 0 — for both tools. -/
theorem main_exit_semantics (isStarknet : Bool) (fetches : List FetchResult) :
    (scrapeHoldersMain isStarknet fetches = (false, 1) ↔
      buildSnapshotData (collectHolders isStarknet fetches []) = []) ∧
    (scrapeHoldersMain isStarknet fetches = (true, 0) ↔
      buildSnapshotData (collectHolders isStarknet fetches []) ≠ []) ∧
    (scrapeTokenIdsMain fetches = (false, 1) ↔ collectTokenIds fetches [] = []) ∧
    (scrapeTokenIdsMain fetches = (true, 0) ↔ collectTokenIds fetches [] ≠ []) :=
  ⟨(exitPair_spec _).1, (exitPair_spec _).2, (exitPair_spec _).1, (exitPair_spec _).2⟩

theorem insertLe_replicate {α : Type} (le : α → α → Bool) (a : α) (h : le a a = true) :
    ∀ k, insertLe le a (List.replicate k a) = List.replicate (k + 1) a := by
  intro k
  cases k with
  | zero => rfl
  | succ k => simp [List.replicate_succ, insertLe, h]

theorem sortLe_replicate {α : Type} (le : α → α → Bool) (a : α) (h : le a a = true) :
    ∀ n, sortLe le (List.replicate n a) = List.replicate n a := by
  intro n
  induction n with
  | zero => rfl
  | succ n ih =>
      rw [List.replicate_succ, sortLe, ih]
      exact insertLe_replicate le a h n

/-- Claim C1 evaluation at the spec's own example: for 10 holders each with
amount 5, the computed Gini coefficient is `1/100`, not `0` — `np.trapz`
integrates from the first sample point `(10, 10)` instead of the Lorenz
origin `(0, 0)`, losing the first triangle of area `50`. -/
theorem lorenzGini_equal_ten_holders :
    lorenzGini (List.replicate 10 5) = 1 / 100 ∧ (1 / 100 : ℚ) ≠ 0 := by
  refine ⟨?_, by norm_num⟩
  have hsort := sortLe_replicate ratLe 5 (by norm_num [ratLe]) 10
  have hrep : List.replicate 10 (5 : ℚ) = [5, 5, 5, 5, 5, 5, 5, 5, 5, 5] := rfl
  have hrange : List.range 10 = [0, 1, 2, 3, 4, 5, 6, 7, 8, 9] := rfl
  unfold lorenzGini
  rw [hrep] at hsort
  simp only [hrep, hsort, List.length_cons, List.length_nil, hrange,
    List.map_cons, List.map_nil, cumsumAux, List.zip_cons_cons, List.zip_nil_right,
    List.sum_cons, List.sum_nil, trapz]
  norm_num

/-- Claim C10: for a single holder with a positive amount the computed Gini
coefficient is exactly 1: `np.trapz` over one sample point yields area 0,
so `gini = (5000 - 0) / 5000 = 1`. -/
theorem lorenzGini_single_holder (a : ℚ) (_ha : 0 < a) : lorenzGini [a] = 1 := by
  have hs : sortLe ratLe [a] = [a] := rfl
  have hr : List.range 1 = [0] := rfl
  unfold lorenzGini
  simp only [hs, List.sum_cons, List.sum_nil, List.length_cons, List.length_nil, hr,
    List.map_cons, List.map_nil, cumsumAux, List.zip_cons_cons, List.zip_nil_right, trapz]
  norm_num

/-- Witness for C10 at amount 5. -/
theorem lorenzGini_single_holder_witness : lorenzGini [5] = 1 :=
  lorenzGini_single_holder 5 (by norm_num)

end ClaimsApp
